import Mathlib

/-!
Shallow embedding of the arbitrage-monitor script (src/bybit价差1.5.py).

Conventions of the embedding:
* Python floats are modelled as rationals (`ℚ`); the script's inputs are
  decimal numeric strings so every value of interest is rational.
* A Python f-string `%.nf` rendering that is later parsed back with `float`
  is modelled by its numeric content: `roundDec n` rounds to `n` decimal
  places (`f"{x:.2f}"` followed by `float(...)` is rounding at 2 decimals).
* A raw ticker field is `missing` (dict access raises KeyError),
  `malformed` (`float(...)` raises ValueError; both are caught by the
  `try` in `process_data`), or `num q` (parses to the number `q`).
* The uncaught exceptions the script can raise while processing a batch —
  KeyError on `item['symbol']` (accessed outside the `try`) and
  ZeroDivisionError on `index_price / mark_price` when the mark price is
  zero — are modelled by `Except PyErr`.
* `DISPLAY_CONFIG.get(base_token, DISPLAY_CONFIG["*"]) == "yes"` is
  modelled by a boolean-valued function `display`.
-/

/-- Configuration constant `DEVIATION_THRESHOLD = 0.4`. -/
def DEVIATION_THRESHOLD : ℚ := 0.4

/-- Configuration constant `ARBITRAGE_THRESHOLD_CONTRACT = 1`. -/
def ARBITRAGE_THRESHOLD_CONTRACT : ℚ := 1

/-- Configuration constant `ARBITRAGE_THRESHOLD_LENDING = 3`. -/
def ARBITRAGE_THRESHOLD_LENDING : ℚ := 3

/-- Rounding to `n` decimal places: the numeric content of Python's
`f"{x:.nf}"` formatting (re-parsed with `float`).  Half-way points round
up; Python formatting resolves them by the binary float's exact value,
which agrees everywhere a half-way tie does not occur. -/
def roundDec (n : ℕ) (q : ℚ) : ℚ :=
  ((⌊q * (10 : ℚ) ^ n + 1 / 2⌋ : ℤ) : ℚ) / (10 : ℚ) ^ n

/-- One raw JSON field of a ticker: absent, present but non-numeric, or numeric. -/
inductive RawField where
  | missing : RawField
  | malformed : RawField
  | num : ℚ → RawField
deriving DecidableEq

/-- Result of `float(field)` under the `try` block: `some q` when it parses, `none`
when the access raises KeyError or the conversion raises ValueError. -/
def RawField.parse : RawField → Option ℚ
  | .num q => some q
  | _ => none

/-- One element of the `raw_data` list consumed by `process_data`.
`symbol = none` models a record without a `'symbol'` key. -/
structure RawTicker where
  symbol : Option String
  markPrice : RawField
  indexPrice : RawField
  fundingRate : RawField
deriving DecidableEq

/-- One platform descriptor of the token map: platform name and type tag. -/
structure PlatformInfo where
  platform : String
  type : String
deriving DecidableEq

/-- The token map built by `load_platforms`: token → its platform entries
(`none` models `base_token not in token_map`). -/
abbrev TokenMap : Type := String → Option (List PlatformInfo)

/-- A row of `main_table` (the numeric cells keep the 4-decimal rendering's value). -/
structure MainRow where
  token : String
  mark_price : ℚ
  index_price : ℚ
  settle : String
deriving DecidableEq

/-- An element of `arbitrage_list`.  The script stores formatted strings
(`f"{deviation:.2f}%"` etc.); each numeric field here holds that string's
numeric value, i.e. the source value rounded at the rendered precision. -/
structure ArbEntry where
  token : String
  deviation : ℚ
  funding_rate : ℚ
  index_price : ℚ
  mark_price : ℚ
deriving DecidableEq

/-- An element of `platform_list` (raw, unformatted numbers). -/
structure PlatformEntry where
  pair : String
  deviation : ℚ
  funding_rate : ℚ
  type : String
  platform : String
deriving DecidableEq

/-- Exceptions `process_data` can raise (they escape the function and
abort the whole batch). -/
inductive PyErr where
  | keyError : PyErr
  | zeroDivisionError : PyErr
deriving DecidableEq

/-- Python `s.upper()`, modelled character-wise. -/
def pyUpper (s : String) : String := ⟨s.data.map Char.toUpper⟩

/-- Python `s.endswith(suffix)`, modelled on the character lists. -/
def pyEndsWith (s suffix : String) : Bool := suffix.data.isSuffixOf s.data

/-- Python `s[:-n]` (for `n > 0`): drop the last `n` characters. -/
def pyDropRight (s : String) (n : ℕ) : String := ⟨s.data.take (s.data.length - n)⟩

/-- Python `s.split(c)[0]`: the characters before the first separator. -/
def pySplitFirst (s : String) (c : Char) : String := ⟨s.data.takeWhile fun d => d ≠ c⟩

/-- Token derivation `symbol[:-4] if symbol.endswith('USDT') else symbol` on the
upper-cased symbol (lines 56–57). -/
def baseToken (s : String) : String :=
  let symbol := pyUpper s
  if pyEndsWith symbol "USDT" then pyDropRight symbol 4 else symbol

/-- Line 76: `deviation = (index_price / mark_price - 1) * 100`. -/
def deviationOf (mark index : ℚ) : ℚ := (index / mark - 1) * 100

/-- The body of the `for item in raw_data` loop of `process_data`: the
(main_table, arbitrage_list, platform_list) contribution of one item, or
the uncaught exception it raises. -/
def processItem (display : String → Bool) (token_map : TokenMap) (item : RawTicker) :
    Except PyErr (List MainRow × List ArbEntry × List PlatformEntry) :=
  match item.symbol with
  | none => .error .keyError
  | some s =>
    let base_token := baseToken s
    match item.markPrice.parse, item.indexPrice.parse, item.fundingRate.parse with
    | some mark_price, some index_price, some fr => do
      let funding_rate := fr * 100
      let mainRows : List MainRow :=
        if display base_token then
          [⟨base_token, roundDec 4 mark_price, roundDec 4 index_price, "USDT"⟩]
        else []
      if mark_price = 0 then .error .zeroDivisionError
      else
        let deviation := deviationOf mark_price index_price
        if |deviation| > DEVIATION_THRESHOLD then
          let entry : ArbEntry :=
            ⟨base_token, roundDec 2 deviation, roundDec 2 funding_rate,
              roundDec 4 index_price, roundDec 4 mark_price⟩
          let plats : List PlatformEntry :=
            match token_map base_token with
            | some infos =>
              infos.map fun pi =>
                ⟨base_token ++ "_USDT", deviation, funding_rate, pi.type, pi.platform⟩
            | none => []
          .ok (mainRows, [entry], plats)
        else .ok (mainRows, [], [])
    | _, _, _ => .ok ([], [], [])

/-- The whole `for` loop of `process_data`: concatenated per-item results,
propagating any uncaught exception. -/
def gather (display : String → Bool) (token_map : TokenMap) :
    List RawTicker → Except PyErr (List MainRow × List ArbEntry × List PlatformEntry)
  | [] => .ok ([], [], [])
  | t :: ts =>
    match processItem display token_map t with
    | .error e => .error e
    | .ok (m₁, a₁, p₁) =>
      match gather display token_map ts with
      | .error e => .error e
      | .ok (m₂, a₂, p₂) => .ok (m₁ ++ m₂, a₁ ++ a₂, p₁ ++ p₂)

/-- Generic model of Python's stable `list.sort(key=...)`: stable insertion
sort, ascending in `key`. -/
def pySortKey {α : Type} {β : Type} [LinearOrder β] (key : α → β) (l : List α) : List α :=
  l.insertionSort fun a b => key a ≤ key b

/-- Sort key of line 99: `abs(float(x['deviation'][:-1]))`, descending
(`reverse=True` is ascending in the negated key). -/
def arbKey (e : ArbEntry) : ℚ := -|e.deviation|

/-- Sort key of line 100: `(-abs(x['deviation']), -abs(x['funding_rate']))`,
compared lexicographically. -/
def platKey (e : PlatformEntry) : ℚ ×ₗ ℚ := toLex (-|e.deviation|, -|e.funding_rate|)

/-- Lines 49–102, `process_data(raw_data, token_map)`: per-item gathering
followed by the two sorts of lines 99–100. -/
def process_data (display : String → Bool) (token_map : TokenMap) (raw_data : List RawTicker) :
    Except PyErr (List MainRow × List ArbEntry × List PlatformEntry) :=
  match gather display token_map raw_data with
  | .error e => .error e
  | .ok (main_table, arbitrage_list, platform_list) =>
    .ok (main_table, pySortKey arbKey arbitrage_list, pySortKey platKey platform_list)

/-- Line 210: `ARBITRAGE_THRESHOLD_CONTRACT if item['type'] == "合约" else
ARBITRAGE_THRESHOLD_LENDING`.  The source compares the venue-type tag with
the literal `"合约"` ("contract"); every other tag gets the lending
threshold. -/
def alertThreshold (ty : String) : ℚ :=
  if ty = "合约" then ARBITRAGE_THRESHOLD_CONTRACT else ARBITRAGE_THRESHOLD_LENDING

/-- Line 211: `abs(item['deviation']) >= threshold` — alert eligibility of
one platform-list entry. -/
def alert_eligible (e : PlatformEntry) : Prop :=
  |e.deviation| ≥ alertThreshold e.type

instance : DecidablePred alert_eligible := fun e =>
  inferInstanceAs (Decidable (|e.deviation| ≥ alertThreshold e.type))

/-- Lines 212–217: the rendered alert message.  The `%.2f` numeric renderings
are embedded through `roundDec 2` and `ToString ℚ`. -/
def alert_msg (e : PlatformEntry) : String :=
  "套利机会：" ++ e.pair ++ " 偏离率:" ++ toString (roundDec 2 |e.deviation|) ++
    "% 资金费率:" ++ toString (roundDec 2 e.funding_rate) ++ "% 平台:" ++ e.platform

/-- An element of `critical_alerts` (lines 218–221). -/
structure Alert where
  token : String
  message : String
deriving DecidableEq

/-- Lines 208–221: build `critical_alerts` from `platform_list`, keeping the
entries meeting their type's threshold; the token is
`item['pair'].split('_')[0]`. -/
def criticalAlerts (platform_list : List PlatformEntry) : List Alert :=
  platform_list.filterMap fun e =>
    if alert_eligible e then
      some ⟨pySplitFirst e.pair '_', alert_msg e⟩
    else none

/-- One persisted alert record (`new_entry` of lines 129–133 / a JSON record
of `arbitrage_records.json`). -/
structure AlertRecord where
  token : String
  timestamp : ℤ
  message : String
deriving DecidableEq

/-- The persisted record file: `none` models a missing
`arbitrage_records.json`, `some rs` a file holding the records `rs`. -/
abbrev RecordFile : Type := Option (List AlertRecord)

/-- Lines 105–111, `load_arb_records()`: the parsed file, or `[]` when the
file does not exist. -/
def load_arb_records (file : RecordFile) : List AlertRecord := file.getD []

/-- Lines 113–119, `save_arb_records(records)`: overwrite the file only when
`UPDATE_JSON.lower() == "yes"` (here the flag `update_json`); otherwise the
file is left as it is. -/
def save_arb_records (update_json : Bool) (records : List AlertRecord) (file : RecordFile) :
    RecordFile :=
  if update_json then some records else file

/-- The in-memory dict `existing` of line 123: an insertion-ordered
association list, as a Python `dict` is. -/
abbrev RecordDict : Type := List (String × AlertRecord)

/-- Python dict assignment `d[k] = v`: replace in place when the key exists,
append otherwise. -/
def dictInsert (d : RecordDict) (k : String) (v : AlertRecord) : RecordDict :=
  if d.any (fun p => p.1 = k) then
    d.map fun p => if p.1 = k then (k, v) else p
  else d ++ [(k, v)]

/-- Line 123, the dict comprehension over `load_arb_records()`. -/
def dictOfRecords (rs : List AlertRecord) : RecordDict :=
  rs.foldl (fun d r => dictInsert d r.token r) []

/-- The `for alert in current_alerts` loop of lines 126–135: returns the
`new_alerts` list and the final state of `existing`.  `now` models
`int(time.time())`. -/
def filterLoop (now : ℤ) : List Alert → RecordDict → List AlertRecord × RecordDict
  | [], existing => ([], existing)
  | a :: rest, existing =>
    if existing.any (fun p => p.1 = a.token) then
      filterLoop now rest existing
    else
      (⟨a.token, now, a.message⟩ ::
          (filterLoop now rest (existing ++ [(a.token, ⟨a.token, now, a.message⟩)])).1,
        (filterLoop now rest (existing ++ [(a.token, ⟨a.token, now, a.message⟩)])).2)

/-- Everything observable about one `filter_new_alerts` call: its return
value, the record file afterwards, whether `save_arb_records` was invoked
(line 137's guard), and the final in-memory dict `existing`. -/
structure FilterResult where
  new_alerts : List AlertRecord
  file : RecordFile
  saveCalled : Bool
  mapping : RecordDict
deriving DecidableEq

/-- Lines 121–140, `filter_new_alerts(current_alerts)`, with the record
file, the `UPDATE_JSON` flag and the clock passed explicitly. -/
def filter_new_alerts (update_json : Bool) (now : ℤ) (current_alerts : List Alert)
    (file : RecordFile) : FilterResult :=
  if (filterLoop now current_alerts (dictOfRecords (load_arb_records file))).1.isEmpty then
    ⟨(filterLoop now current_alerts (dictOfRecords (load_arb_records file))).1, file, false,
      (filterLoop now current_alerts (dictOfRecords (load_arb_records file))).2⟩
  else
    ⟨(filterLoop now current_alerts (dictOfRecords (load_arb_records file))).1,
      save_arb_records update_json
        ((filterLoop now current_alerts (dictOfRecords (load_arb_records file))).2.map Prod.snd)
        file,
      true, (filterLoop now current_alerts (dictOfRecords (load_arb_records file))).2⟩

instance {ε α : Type} [DecidableEq ε] [DecidableEq α] : DecidableEq (Except ε α) := fun x y =>
  match x, y with
  | .error a, .error b =>
    if h : a = b then isTrue (congrArg Except.error h)
    else isFalse fun hc => h (Except.error.inj hc)
  | .ok a, .ok b =>
    if h : a = b then isTrue (congrArg Except.ok h)
    else isFalse fun hc => h (Except.ok.inj hc)
  | .error _, .ok _ => isFalse fun hc => Except.noConfusion hc
  | .ok _, .error _ => isFalse fun hc => Except.noConfusion hc

section StableSortLemmas

variable {α β : Type} [LinearOrder β] (key : α → β)

/-- The output of the modelled `list.sort(key=...)` is sorted: ascending in
the key along the list. -/
theorem pySortKey_pairwise (l : List α) :
    (pySortKey key l).Pairwise fun a b => key a ≤ key b := by
  haveI : IsTotal α fun a b => key a ≤ key b := ⟨fun a b => le_total _ _⟩
  haveI : IsTrans α fun a b => key a ≤ key b := ⟨fun _ _ _ hab hbc => le_trans hab hbc⟩
  exact List.sorted_insertionSort _ l

/-- Inserting `a` leaves the sublist of any fixed key value `k` unchanged,
except that `a` is prepended to it when `key a = k`: the elements passed
over by `orderedInsert` all have keys strictly below `key a`. -/
theorem filter_keyEq_orderedInsert (a : α) (l : List α) (k : β) :
    (List.orderedInsert (fun a b => key a ≤ key b) a l).filter
        (fun x => decide (key x = k)) =
      if key a = k then a :: l.filter (fun x => decide (key x = k))
      else l.filter fun x => decide (key x = k) := by
  have hsplit :=
    List.takeWhile_append_dropWhile (p := fun b => decide ¬(key a ≤ key b)) (l := l)
  rw [List.orderedInsert_eq_take_drop, List.filter_append, List.filter_cons]
  by_cases hk : key a = k
  · have htake :
        (l.takeWhile fun b => decide ¬(key a ≤ key b)).filter
          (fun x => decide (key x = k)) = [] := by
      rw [List.filter_eq_nil_iff]
      intro b hb
      have hb' := List.mem_takeWhile_imp hb
      simp only [decide_eq_true_eq] at hb' ⊢
      exact fun he => hb' (le_of_eq (hk.trans he.symm))
    rw [htake, if_pos (show (decide (key a = k)) = true by simp [hk]), if_pos hk,
      List.nil_append]
    congr 1
    conv_rhs => rw [← hsplit]
    rw [List.filter_append, htake, List.nil_append]
  · rw [if_neg (show ¬((decide (key a = k)) = true) by simp [hk]), if_neg hk]
    conv_rhs => rw [← hsplit]
    rw [List.filter_append]

/-- Stability of the modelled `list.sort(key=...)`: the elements of any
fixed key value appear in the output in their input order. -/
theorem pySortKey_filter_eq (l : List α) (k : β) :
    (pySortKey key l).filter (fun a => decide (key a = k)) =
      l.filter fun a => decide (key a = k) := by
  induction l with
  | nil => rfl
  | cons a t ih =>
    show (List.orderedInsert _ a (pySortKey key t)).filter _ = _
    rw [filter_keyEq_orderedInsert, ih, List.filter_cons]
    by_cases hk : key a = k
    · rw [if_pos hk, if_pos (show (decide (key a = k)) = true by simp [hk])]
    · rw [if_neg hk, if_neg (show ¬((decide (key a = k)) = true) by simp [hk])]

end StableSortLemmas

section DictLemmas

/-- Every pair of the dict binds a record whose `token` field is its key. -/
def PairsOk (d : RecordDict) : Prop := ∀ p ∈ d, p.2.token = p.1

/-- The membership test `token in existing` of line 128, read as key
membership. -/
theorem any_iff_mem_keys (d : RecordDict) (k : String) :
    d.any (fun p => p.1 = k) = true ↔ k ∈ d.map Prod.fst := by
  simp only [List.any_eq_true, decide_eq_true_eq, List.mem_map]

/-- Keys of a Python dict assignment: unchanged when the key is present,
the key appended otherwise. -/
theorem keys_dictInsert (d : RecordDict) (k : String) (v : AlertRecord) :
    (dictInsert d k v).map Prod.fst =
      if d.any (fun p => p.1 = k) = true then d.map Prod.fst
      else d.map Prod.fst ++ [k] := by
  unfold dictInsert
  by_cases h : d.any (fun p => p.1 = k) = true
  · rw [if_pos h, if_pos h, List.map_map]
    refine List.map_congr_left fun p _ => ?_
    simp only [Function.comp_apply]
    by_cases hp : p.1 = k
    · rw [if_pos hp]; exact hp.symm
    · rw [if_neg hp]
  · rw [if_neg h, if_neg h, List.map_append]
    rfl

theorem pairsOk_dictInsert {d : RecordDict} {k : String} {v : AlertRecord}
    (hd : PairsOk d) (hv : v.token = k) : PairsOk (dictInsert d k v) := by
  unfold dictInsert
  split
  · intro p hp
    obtain ⟨q, hq, rfl⟩ := List.mem_map.mp hp
    by_cases hqk : q.1 = k
    · rw [if_pos hqk]; exact hv
    · rw [if_neg hqk]; exact hd q hq
  · intro p hp
    rcases List.mem_append.mp hp with h | h
    · exact hd p h
    · rw [List.mem_singleton.mp h]; exact hv

theorem pairsOk_dictOfRecords (rs : List AlertRecord) : PairsOk (dictOfRecords rs) := by
  suffices h : ∀ (rs : List AlertRecord) (d : RecordDict), PairsOk d →
      PairsOk (rs.foldl (fun d r => dictInsert d r.token r) d) by
    exact h rs [] (fun p hp => absurd hp (List.not_mem_nil p))
  intro rs
  induction rs with
  | nil => intro d hd; exact hd
  | cons r rest ih =>
    intro d hd
    exact ih _ (pairsOk_dictInsert hd rfl)

/-- Key membership in the dict built from a record list is token membership
in the list. -/
theorem mem_keys_dictOfRecords (rs : List AlertRecord) (k : String) :
    k ∈ (dictOfRecords rs).map Prod.fst ↔ k ∈ rs.map AlertRecord.token := by
  suffices h : ∀ (rs : List AlertRecord) (d : RecordDict),
      (k ∈ (rs.foldl (fun d r => dictInsert d r.token r) d).map Prod.fst ↔
        k ∈ d.map Prod.fst ∨ k ∈ rs.map AlertRecord.token) by
    rw [dictOfRecords, h rs []]
    simp
  intro rs
  induction rs with
  | nil => intro d; simp
  | cons r rest ih =>
    intro d
    rw [List.foldl_cons, ih]
    rw [keys_dictInsert]
    by_cases h : d.any (fun p => p.1 = r.token) = true
    · rw [if_pos h]
      have hk := (any_iff_mem_keys d r.token).mp h
      simp only [List.map_cons, List.mem_cons]
      constructor
      · rintro (hd | hr)
        · exact Or.inl hd
        · exact Or.inr (Or.inr hr)
      · rintro (hd | rfl | hr)
        · exact Or.inl hd
        · exact Or.inl hk
        · exact Or.inr hr
    · rw [if_neg h]
      simp only [List.mem_append, List.mem_singleton, List.map_cons, List.mem_cons]
      tauto

end DictLemmas

section FilterLoopLemmas

/-- The keys of `existing` after the loop are the keys before it followed by
the tokens of the newly created records, in order. -/
theorem filterLoop_keys (now : ℤ) (L : List Alert) : ∀ ex : RecordDict,
    (filterLoop now L ex).2.map Prod.fst =
      ex.map Prod.fst ++ (filterLoop now L ex).1.map AlertRecord.token := by
  induction L with
  | nil => intro ex; simp [filterLoop]
  | cons a rest ih =>
    intro ex
    rw [filterLoop]
    split
    · exact ih ex
    · simp only [List.map_cons]
      rw [ih (ex ++ [(a.token, AlertRecord.mk a.token now a.message)])]
      simp

/-- A key present before the loop is still present after it. -/
theorem filterLoop_keys_mono (now : ℤ) (L : List Alert) (ex : RecordDict) (k : String)
    (h : k ∈ ex.map Prod.fst) : k ∈ (filterLoop now L ex).2.map Prod.fst := by
  rw [filterLoop_keys]
  exact List.mem_append_left _ h

/-- Every record returned by the loop has a token that was not yet a key of
`existing` when the loop started. -/
theorem filterLoop_new_not_mem (now : ℤ) (L : List Alert) : ∀ ex : RecordDict,
    ∀ e ∈ (filterLoop now L ex).1, e.token ∉ ex.map Prod.fst := by
  induction L with
  | nil => intro ex e he; simp [filterLoop] at he
  | cons a rest ih =>
    intro ex e he
    rw [filterLoop] at he
    by_cases h : ex.any (fun p => p.1 = a.token) = true
    · rw [if_pos h] at he
      exact ih ex e he
    · rw [if_neg h] at he
      rcases List.mem_cons.mp he with rfl | he'
      · intro hk
        exact h ((any_iff_mem_keys ex _).mpr hk)
      · intro hk
        have hfull := ih (ex ++ [(a.token, AlertRecord.mk a.token now a.message)]) e he'
        exact hfull (by rw [List.map_append]; exact List.mem_append_left _ hk)

/-- The tokens of the records created in one loop pass are pairwise
distinct. -/
theorem filterLoop_tokens_nodup (now : ℤ) (L : List Alert) : ∀ ex : RecordDict,
    ((filterLoop now L ex).1.map AlertRecord.token).Nodup := by
  induction L with
  | nil => intro ex; simp [filterLoop]
  | cons a rest ih =>
    intro ex
    rw [filterLoop]
    split
    · exact ih ex
    · simp only [List.map_cons, List.nodup_cons]
      refine ⟨?_, ih _⟩
      intro hmem
      obtain ⟨e, he, hetok⟩ := List.mem_map.mp hmem
      have hnot :=
        filterLoop_new_not_mem now rest (ex ++ [(a.token, AlertRecord.mk a.token now a.message)]) e he
      apply hnot
      rw [List.map_append, hetok]
      simp

/-- After the loop, every token of the input alert list is a key of
`existing`. -/
theorem filterLoop_covers (now : ℤ) (L : List Alert) : ∀ (ex : RecordDict), ∀ a ∈ L,
    a.token ∈ (filterLoop now L ex).2.map Prod.fst := by
  induction L with
  | nil => intro ex a ha; simp at ha
  | cons b rest ih =>
    intro ex a ha
    rw [filterLoop]
    by_cases h : ex.any (fun p => p.1 = b.token) = true
    · rw [if_pos h]
      rcases List.mem_cons.mp ha with rfl | ha'
      · exact filterLoop_keys_mono now rest ex _ ((any_iff_mem_keys ex _).mp h)
      · exact ih ex a ha'
    · rw [if_neg h]
      rcases List.mem_cons.mp ha with rfl | ha'
      · refine filterLoop_keys_mono now rest _ _ ?_
        rw [List.map_append]
        simp
      · exact ih _ a ha'

/-- If every token of the alert list is already a key, the loop creates
nothing and leaves `existing` unchanged. -/
theorem filterLoop_all_known (now : ℤ) (L : List Alert) (ex : RecordDict)
    (h : ∀ a ∈ L, a.token ∈ ex.map Prod.fst) : filterLoop now L ex = ([], ex) := by
  induction L with
  | nil => rfl
  | cons a rest ih =>
    rw [filterLoop, if_pos ((any_iff_mem_keys ex _).mpr (h a (List.mem_cons_self a rest)))]
    exact ih fun b hb => h b (List.mem_cons_of_mem a hb)

/-- The loop preserves the key/token agreement invariant of the dict. -/
theorem filterLoop_pairsOk (now : ℤ) (L : List Alert) : ∀ ex : RecordDict,
    PairsOk ex → PairsOk (filterLoop now L ex).2 := by
  induction L with
  | nil => intro ex hex; exact hex
  | cons a rest ih =>
    intro ex hex
    rw [filterLoop]
    split
    · exact ih ex hex
    · refine ih _ fun p hp => ?_
      rcases List.mem_append.mp hp with h | h
      · exact hex p h
      · rw [List.mem_singleton.mp h]

end FilterLoopLemmas

section FilterNewAlertsLemmas

/-- The returned `new_alerts` of a call is the loop's new-record list,
whether or not a save happens. -/
theorem filter_new_alerts_new (update_json : Bool) (now : ℤ) (L : List Alert)
    (file : RecordFile) :
    (filter_new_alerts update_json now L file).new_alerts =
      (filterLoop now L (dictOfRecords (load_arb_records file))).1 := by
  rw [filter_new_alerts]
  split <;> rfl

/-- The final in-memory dict of a call is the loop's final `existing`. -/
theorem filter_new_alerts_mapping (update_json : Bool) (now : ℤ) (L : List Alert)
    (file : RecordFile) :
    (filter_new_alerts update_json now L file).mapping =
      (filterLoop now L (dictOfRecords (load_arb_records file))).2 := by
  rw [filter_new_alerts]
  split <;> rfl

/-- The keys of the dict built from a record list are pairwise distinct
(Python dict keys are unique). -/
theorem nodup_keys_dictOfRecords (rs : List AlertRecord) :
    ((dictOfRecords rs).map Prod.fst).Nodup := by
  suffices h : ∀ (rs : List AlertRecord) (d : RecordDict), (d.map Prod.fst).Nodup →
      ((rs.foldl (fun d r => dictInsert d r.token r) d).map Prod.fst).Nodup by
    exact h rs [] List.nodup_nil
  intro rs
  induction rs with
  | nil => intro d hd; exact hd
  | cons r rest ih =>
    intro d hd
    refine ih _ ?_
    rw [keys_dictInsert]
    by_cases h : d.any (fun p => p.1 = r.token) = true
    · rw [if_pos h]; exact hd
    · rw [if_neg h]
      rw [List.nodup_append]
      refine ⟨hd, List.nodup_singleton _, ?_⟩
      intro k hk hk'
      rw [List.mem_singleton.mp hk'] at hk
      exact h ((any_iff_mem_keys d r.token).mpr hk)

end FilterNewAlertsLemmas

section Fixtures

/-- Display behavior under the source's default configuration, which maps
the wildcard to "no": nothing is displayed. -/
def defaultDisplay : String → Bool := fun _ => false

/-- An empty venue registry. -/
def emptyTokenMap : TokenMap := fun _ => none

/-- A well-formed ticker: mark 100, index 100.5, deviation exactly 0.5%. -/
def tickerA : RawTicker := ⟨some "AAAUSDT", .num 100, .num 100.5, .num 0⟩

/-- A well-formed ticker: mark 100, index 100.504, deviation exactly
0.504% — strictly larger than `tickerA`'s, but rendered as the same
`"0.50%"` string. -/
def tickerB : RawTicker := ⟨some "BBBUSDT", .num 100, .num 100.504, .num 0⟩

/-- A ticker whose mark price parses to zero. -/
def tickerZeroMark : RawTicker := ⟨some "ZZZUSDT", .num 0, .num 1, .num 0⟩

/-- A well-formed ticker with a 1% deviation. -/
def tickerGood : RawTicker := ⟨some "GOODUSDT", .num 100, .num 101, .num 0.0001⟩

/-- A ticker record without a `'symbol'` key. -/
def tickerNoSymbol : RawTicker := ⟨none, .num 100, .num 101, .num 0⟩

/-- A ticker whose `'markPrice'` key is absent. -/
def tickerMissingMark : RawTicker := ⟨some "MMMUSDT", .missing, .num 101, .num 0⟩

end Fixtures

/-- Evaluation rule for `roundDec` at concrete values, via the floor
characterization. -/
theorem roundDec_eq_of {n : ℕ} {q r : ℚ} {z : ℤ}
    (h₁ : (z : ℚ) ≤ q * 10 ^ n + 1 / 2) (h₂ : q * 10 ^ n + 1 / 2 < z + 1)
    (h₃ : (z : ℚ) / 10 ^ n = r) : roundDec n q = r := by
  rw [roundDec, Int.floor_eq_iff.mpr ⟨h₁, h₂⟩, h₃]

/-- A ticker whose per-item contribution is empty (a silently skipped
record) leaves the rest of the batch unchanged. -/
theorem gather_skip (display : String → Bool) (tm : TokenMap) (t : RawTicker)
    (ts : List RawTicker) (h : processItem display tm t = .ok ([], [], [])) :
    gather display tm (t :: ts) = gather display tm ts := by
  rw [gather, h]
  cases hg : gather display tm ts with
  | error e => rfl
  | ok r =>
    obtain ⟨m, a, p⟩ := r
    simp

/-- C2: the claim says a ticker whose mark price parses to 0 is rejected
without a division fault, yields no candidates, and leaves the rest of the
batch unaffected.  The code has no such guard: line 76 divides by the zero
mark price, raising an uncaught ZeroDivisionError that aborts the whole
batch — the well-formed `tickerGood` in the same batch produces nothing. -/
theorem c2_mark_zero_raises :
    process_data defaultDisplay emptyTokenMap [tickerZeroMark, tickerGood] =
      .error .zeroDivisionError := by
  decide

/-- C5: a ticker whose `markPrice` key is missing is skipped silently (the
`try` of lines 59–64 catches the KeyError) and the rest of the batch is
unaffected; but a ticker without a `'symbol'` key raises an uncaught
KeyError at line 56 — outside the `try` — aborting the whole batch, so the
claim fails for the `symbol` field. -/
theorem c5_missing_symbol_raises :
    process_data defaultDisplay emptyTokenMap [tickerMissingMark, tickerGood] =
        process_data defaultDisplay emptyTokenMap [tickerGood] ∧
      process_data defaultDisplay emptyTokenMap [tickerNoSymbol, tickerGood] =
        .error .keyError := by
  constructor
  · have h : processItem defaultDisplay emptyTokenMap tickerMissingMark = .ok ([], [], []) := by
      simp [processItem, tickerMissingMark, RawField.parse]
    rw [process_data, process_data, gather_skip _ _ _ _ h]
  · decide

/-- C9: with persistence disabled (`UPDATE_JSON = "no"`), no call of
`filter_new_alerts` changes the record file, and consequently after any
sequence of calls starting from a missing file a fresh load still returns
the empty record list. -/
theorem c9_no_persistence_frame :
    (∀ (now : ℤ) (L : List Alert) (file : RecordFile),
        (filter_new_alerts false now L file).file = file) ∧
      ∀ calls : List (ℤ × List Alert),
        load_arb_records
          (calls.foldl (fun f c => (filter_new_alerts false c.1 c.2 f).file) none) = [] := by
  have hframe : ∀ (now : ℤ) (L : List Alert) (file : RecordFile),
      (filter_new_alerts false now L file).file = file := by
    intro now L file
    rw [filter_new_alerts]
    split
    · rfl
    · rfl
  refine ⟨hframe, fun calls => ?_⟩
  have hfold : ∀ (cs : List (ℤ × List Alert)) (f : RecordFile),
      cs.foldl (fun f c => (filter_new_alerts false c.1 c.2 f).file) f = f := by
    intro cs
    induction cs with
    | nil => intro f; rfl
    | cons c rest ih =>
      intro f
      rw [List.foldl_cons, hframe]
      exact ih f
  rw [hfold]
  rfl

/-- C10: a `filter_new_alerts` call that creates no new records does not
invoke `save_arb_records` at all (line 137 guards the save) and leaves the
record file untouched, whatever the persistence flag. -/
theorem c10_no_new_no_save (update_json : Bool) (now : ℤ) (L : List Alert) (file : RecordFile)
    (h : (filter_new_alerts update_json now L file).new_alerts = []) :
    (filter_new_alerts update_json now L file).saveCalled = false ∧
      (filter_new_alerts update_json now L file).file = file := by
  rw [filter_new_alerts] at h ⊢
  by_cases hc : (filterLoop now L (dictOfRecords (load_arb_records file))).1.isEmpty
  · rw [if_pos hc]
    exact ⟨rfl, rfl⟩
  · rw [if_neg hc] at h
    exact absurd (List.isEmpty_iff.mpr h) hc

/-- Witness for C10: a token already recorded in the file produces no new
record, no save and an unchanged file even with persistence enabled. -/
theorem c10_no_new_no_save_witness :
    (filter_new_alerts true 0 [⟨"FOO", "x"⟩] (some [⟨"FOO", 5, "old"⟩])).new_alerts = [] ∧
      (filter_new_alerts true 0 [⟨"FOO", "x"⟩] (some [⟨"FOO", 5, "old"⟩])).saveCalled = false ∧
      (filter_new_alerts true 0 [⟨"FOO", "x"⟩] (some [⟨"FOO", 5, "old"⟩])).file =
        some [⟨"FOO", 5, "old"⟩] :=
  ⟨by decide, c10_no_new_no_save true 0 [⟨"FOO", "x"⟩] (some [⟨"FOO", 5, "old"⟩]) (by decide)⟩

/-- C1 counterexample: with persistence disabled, a second
`filter_new_alerts` call with the same, previously unrecorded alert list
returns the very same non-empty record list again — the in-memory dict is
rebuilt from the unchanged file on every call, so the claim's "regardless
of whether persistence is enabled" fails. -/
theorem c1_realerts_without_persistence :
    (filter_new_alerts false 0 [⟨"FOO", "msg"⟩] none).new_alerts = [⟨"FOO", 0, "msg"⟩] ∧
      (filter_new_alerts false 1 [⟨"FOO", "msg"⟩]
          (filter_new_alerts false 0 [⟨"FOO", "msg"⟩] none).file).new_alerts =
        [⟨"FOO", 1, "msg"⟩] := by
  constructor
  · decide
  · decide

/-- C1 amended: with persistence enabled, a `filter_new_alerts` call on a
non-empty alert list whose tokens are not yet recorded returns a non-empty
record list, and a second call with the same list returns the empty list:
the first call saved every token of the list into the record file. -/
theorem c1_dedup_with_persistence (now₁ now₂ : ℤ) (L : List Alert) (file : RecordFile)
    (hne : L ≠ [])
    (hnew : ∀ a ∈ L, a.token ∉ (load_arb_records file).map AlertRecord.token) :
    (filter_new_alerts true now₁ L file).new_alerts ≠ [] ∧
      (filter_new_alerts true now₂ L (filter_new_alerts true now₁ L file).file).new_alerts =
        [] := by
  obtain ⟨a, rest, rfl⟩ : ∃ a rest, L = a :: rest := by
    cases L with
    | nil => exact absurd rfl hne
    | cons a r => exact ⟨a, r, rfl⟩
  have hkey : a.token ∉ (dictOfRecords (load_arb_records file)).map Prod.fst := by
    rw [mem_keys_dictOfRecords]
    exact hnew a (List.mem_cons_self a rest)
  have hany :
      ¬((dictOfRecords (load_arb_records file)).any (fun p => p.1 = a.token) = true) :=
    fun h => hkey ((any_iff_mem_keys _ _).mp h)
  have hnonempty :
      (filterLoop now₁ (a :: rest) (dictOfRecords (load_arb_records file))).1 ≠ [] := by
    rw [filterLoop, if_neg hany]
    exact List.cons_ne_nil _ _
  have hres : filter_new_alerts true now₁ (a :: rest) file =
      ⟨(filterLoop now₁ (a :: rest) (dictOfRecords (load_arb_records file))).1,
        some ((filterLoop now₁ (a :: rest)
            (dictOfRecords (load_arb_records file))).2.map Prod.snd),
        true,
        (filterLoop now₁ (a :: rest) (dictOfRecords (load_arb_records file))).2⟩ := by
    rw [filter_new_alerts,
      if_neg (fun hc => hnonempty (List.isEmpty_iff.mp hc))]
    rfl
  refine ⟨by rw [hres]; exact hnonempty, ?_⟩
  rw [hres]
  rw [filter_new_alerts_new]
  have hload :
      load_arb_records (some ((filterLoop now₁ (a :: rest)
          (dictOfRecords (load_arb_records file))).2.map Prod.snd)) =
        (filterLoop now₁ (a :: rest) (dictOfRecords (load_arb_records file))).2.map Prod.snd :=
    rfl
  rw [hload]
  have hpairs : PairsOk (filterLoop now₁ (a :: rest) (dictOfRecords (load_arb_records file))).2 :=
    filterLoop_pairsOk now₁ (a :: rest) _ (pairsOk_dictOfRecords _)
  have hknown : ∀ b ∈ a :: rest,
      b.token ∈ (dictOfRecords ((filterLoop now₁ (a :: rest)
          (dictOfRecords (load_arb_records file))).2.map Prod.snd)).map Prod.fst := by
    intro b hb
    rw [mem_keys_dictOfRecords, List.map_map]
    have hcov := filterLoop_covers now₁ (a :: rest) (dictOfRecords (load_arb_records file)) b hb
    have hmap :
        (filterLoop now₁ (a :: rest) (dictOfRecords (load_arb_records file))).2.map
            (AlertRecord.token ∘ Prod.snd) =
          (filterLoop now₁ (a :: rest) (dictOfRecords (load_arb_records file))).2.map
            Prod.fst :=
      List.map_congr_left fun p hp => hpairs p hp
    rw [hmap]
    exact hcov
  rw [filterLoop_all_known now₂ (a :: rest) _ hknown]

/-- Witness for C1's amended theorem at a concrete input. -/
theorem c1_dedup_with_persistence_witness :
    (filter_new_alerts true 0 [⟨"FOO", "msg"⟩] none).new_alerts ≠ [] ∧
      (filter_new_alerts true 1 [⟨"FOO", "msg"⟩]
          (filter_new_alerts true 0 [⟨"FOO", "msg"⟩] none).file).new_alerts = [] :=
  c1_dedup_with_persistence 0 1 [⟨"FOO", "msg"⟩] none (by decide) (by decide)

/-- C8: in any single `filter_new_alerts` call, each token appears at most
once among the returned records and at most once as a key of the final
in-memory mapping; a token already recorded in the loaded file never
produces a new record, and a listed token *not* yet recorded produces
exactly one new record — also when several entries of the call share it. -/
theorem c8_dedup_per_token (update_json : Bool) (now : ℤ) (L : List Alert)
    (file : RecordFile) :
    ((filter_new_alerts update_json now L file).new_alerts.map AlertRecord.token).Nodup ∧
      ((filter_new_alerts update_json now L file).mapping.map Prod.fst).Nodup ∧
      (∀ a ∈ L, a.token ∈ (load_arb_records file).map AlertRecord.token →
        a.token ∉ (filter_new_alerts update_json now L file).new_alerts.map
          AlertRecord.token) ∧
      ∀ a ∈ L, a.token ∉ (load_arb_records file).map AlertRecord.token →
        ((filter_new_alerts update_json now L file).new_alerts.map
          AlertRecord.token).count a.token = 1 := by
  rw [filter_new_alerts_new, filter_new_alerts_mapping]
  refine ⟨filterLoop_tokens_nodup now L _, ?_, ?_, ?_⟩
  · rw [filterLoop_keys, List.nodup_append]
    refine ⟨nodup_keys_dictOfRecords _, filterLoop_tokens_nodup now L _, ?_⟩
    intro k hk hk2
    obtain ⟨e, he, rfl⟩ := List.mem_map.mp hk2
    exact filterLoop_new_not_mem now L _ e he hk
  · intro a ha hmem hcontra
    obtain ⟨e, he, hetok⟩ := List.mem_map.mp hcontra
    refine filterLoop_new_not_mem now L _ e he ?_
    rw [mem_keys_dictOfRecords, hetok]
    exact hmem
  · intro a ha hnot
    have hcov := filterLoop_covers now L (dictOfRecords (load_arb_records file)) a ha
    rw [filterLoop_keys] at hcov
    have hmem : a.token ∈ (filterLoop now L
        (dictOfRecords (load_arb_records file))).1.map AlertRecord.token := by
      rcases List.mem_append.mp hcov with h | h
      · exact absurd ((mem_keys_dictOfRecords _ _).mp h) hnot
      · exact h
    exact List.count_eq_one_of_mem (filterLoop_tokens_nodup now L _) hmem

/-- Witness for C8: two eligible entries for the unrecorded token FOO in
one call yield exactly one FOO record, and the already-recorded token BAR
yields none. -/
theorem c8_dedup_per_token_witness :
    ((filter_new_alerts true 0 [⟨"FOO", "x"⟩, ⟨"FOO", "y"⟩, ⟨"BAR", "z"⟩]
        (some [⟨"BAR", 1, "m"⟩])).new_alerts.map AlertRecord.token).Nodup ∧
      "BAR" ∉ (filter_new_alerts true 0 [⟨"FOO", "x"⟩, ⟨"FOO", "y"⟩, ⟨"BAR", "z"⟩]
        (some [⟨"BAR", 1, "m"⟩])).new_alerts.map AlertRecord.token ∧
      ((filter_new_alerts true 0 [⟨"FOO", "x"⟩, ⟨"FOO", "y"⟩, ⟨"BAR", "z"⟩]
        (some [⟨"BAR", 1, "m"⟩])).new_alerts.map AlertRecord.token).count "FOO" = 1 :=
  ⟨(c8_dedup_per_token true 0 [⟨"FOO", "x"⟩, ⟨"FOO", "y"⟩, ⟨"BAR", "z"⟩]
      (some [⟨"BAR", 1, "m"⟩])).1,
    (c8_dedup_per_token true 0 [⟨"FOO", "x"⟩, ⟨"FOO", "y"⟩, ⟨"BAR", "z"⟩]
      (some [⟨"BAR", 1, "m"⟩])).2.2.1 ⟨"BAR", "z"⟩ (by decide) (by decide),
    (c8_dedup_per_token true 0 [⟨"FOO", "x"⟩, ⟨"FOO", "y"⟩, ⟨"BAR", "z"⟩]
      (some [⟨"BAR", 1, "m"⟩])).2.2.2 ⟨"FOO", "x"⟩ (by decide) (by decide)⟩

/-- C3: the venue-type tag selects the alert threshold — the contract tag
(the source literal `"合约"`) compares against
`ARBITRAGE_THRESHOLD_CONTRACT`, every other tag (in particular the lending
tag) against `ARBITRAGE_THRESHOLD_LENDING`, and no entry below its type's
threshold is alert-eligible. -/
theorem c3_type_selects_threshold (e : PlatformEntry) :
    (e.type = "合约" →
        (alert_eligible e ↔ ARBITRAGE_THRESHOLD_CONTRACT ≤ |e.deviation|)) ∧
      (e.type ≠ "合约" →
        (alert_eligible e ↔ ARBITRAGE_THRESHOLD_LENDING ≤ |e.deviation|)) ∧
      (|e.deviation| < alertThreshold e.type → ¬alert_eligible e) := by
  refine ⟨fun h => ?_, fun h => ?_, fun h => not_le.mpr h⟩
  · rw [alert_eligible, alertThreshold, if_pos h]
  · rw [alert_eligible, alertThreshold, if_neg h]

/-- Witness for C3: a 2%-deviation contract-type entry is eligible
(threshold 1), the same entry with a lending-type tag is not
(threshold 3). -/
theorem c3_type_selects_threshold_witness :
    alert_eligible ⟨"FOO_USDT", 2, 0, "合约", "X"⟩ ∧
      ¬alert_eligible ⟨"FOO_USDT", 2, 0, "理财", "X"⟩ :=
  ⟨((c3_type_selects_threshold ⟨"FOO_USDT", 2, 0, "合约", "X"⟩).1 rfl).mpr (by decide),
    (c3_type_selects_threshold ⟨"FOO_USDT", 2, 0, "理财", "X"⟩).2.2 (by decide)⟩

/-- C6: a ticker with parseable numeric fields and a non-zero mark price
contributes a candidate entry iff `abs((index/mark − 1) × 100)` strictly
exceeds `DEVIATION_THRESHOLD`, and any contributed candidate's token is the
upper-cased symbol with a trailing `USDT` stripped when present, the
symbol as-is otherwise. -/
theorem c6_candidate_iff_threshold (display : String → Bool) (tm : TokenMap)
    (t : RawTicker) (s : String) (mark index fr : ℚ)
    (hs : t.symbol = some s) (hm : t.markPrice = .num mark) (hi : t.indexPrice = .num index)
    (hf : t.fundingRate = .num fr) (hmz : mark ≠ 0) :
    ∃ m a p, processItem display tm t = .ok (m, a, p) ∧
      (a ≠ [] ↔ |deviationOf mark index| > DEVIATION_THRESHOLD) ∧
      ∀ e ∈ a, e.token =
        if pyEndsWith (pyUpper s) "USDT" then pyDropRight (pyUpper s) 4
        else pyUpper s := by
  rw [processItem, hs, hm, hi, hf]
  simp only [RawField.parse]
  rw [if_neg hmz]
  by_cases hth : |deviationOf mark index| > DEVIATION_THRESHOLD
  · rw [if_pos hth]
    refine ⟨_, _, _, rfl, iff_of_true (List.cons_ne_nil _ _) hth, ?_⟩
    intro e he
    rw [List.mem_singleton.mp he]
    rfl
  · rw [if_neg hth]
    refine ⟨_, _, _, rfl, iff_of_false (fun h => h rfl) hth, ?_⟩
    intro e he
    exact absurd he (List.not_mem_nil e)

/-- Witness for C6 at a concrete lower-case symbol with a 1% deviation. -/
theorem c6_candidate_iff_threshold_witness :
    ∃ m a p,
      processItem defaultDisplay emptyTokenMap
          ⟨some "fooUSDT", .num 100, .num 101, .num 0⟩ = .ok (m, a, p) ∧
        (a ≠ [] ↔ |deviationOf 100 101| > DEVIATION_THRESHOLD) ∧
        ∀ e ∈ a, e.token =
          if pyEndsWith (pyUpper "fooUSDT") "USDT" then pyDropRight (pyUpper "fooUSDT") 4
          else pyUpper "fooUSDT" :=
  c6_candidate_iff_threshold defaultDisplay emptyTokenMap
    ⟨some "fooUSDT", .num 100, .num 101, .num 0⟩ "fooUSDT" 100 101 0
    rfl rfl rfl rfl (by decide)

/-- Per-item evaluation of `tickerA`: deviation exactly 0.5%, displayed and
re-parsed as 0.5. -/
theorem processItem_tickerA :
    processItem defaultDisplay emptyTokenMap tickerA =
      .ok ([], [⟨"AAA", 0.5, 0, 100.5, 100⟩], []) := by
  have hb : baseToken "AAAUSDT" = "AAA" := by decide
  have h0 : processItem defaultDisplay emptyTokenMap tickerA =
      .ok ([], [⟨"AAA", roundDec 2 (deviationOf 100 100.5), roundDec 2 (0 * 100),
        roundDec 4 100.5, roundDec 4 100⟩], []) := by
    rw [processItem]
    simp only [tickerA, RawField.parse, hb]
    norm_num [deviationOf, DEVIATION_THRESHOLD, defaultDisplay, emptyTokenMap, abs_of_nonneg]
  have r1 : roundDec 2 (deviationOf 100 100.5) = 0.5 :=
    roundDec_eq_of (z := 50) (by norm_num [deviationOf]) (by norm_num [deviationOf])
      (by norm_num)
  have r2 : roundDec 2 ((0 : ℚ) * 100) = 0 :=
    roundDec_eq_of (z := 0) (by norm_num) (by norm_num) (by norm_num)
  have r3 : roundDec 4 (100.5 : ℚ) = 100.5 :=
    roundDec_eq_of (z := 1005000) (by norm_num) (by norm_num) (by norm_num)
  have r4 : roundDec 4 (100 : ℚ) = 100 :=
    roundDec_eq_of (z := 1000000) (by norm_num) (by norm_num) (by norm_num)
  rw [h0, r1, r2, r3, r4]

/-- Per-item evaluation of `tickerB`: deviation exactly 0.504%, re-parsed
from its 2-decimal rendering as 0.5 — the same sort key as `tickerA`. -/
theorem processItem_tickerB :
    processItem defaultDisplay emptyTokenMap tickerB =
      .ok ([], [⟨"BBB", 0.5, 0, 100.504, 100⟩], []) := by
  have hb : baseToken "BBBUSDT" = "BBB" := by decide
  have h0 : processItem defaultDisplay emptyTokenMap tickerB =
      .ok ([], [⟨"BBB", roundDec 2 (deviationOf 100 100.504), roundDec 2 (0 * 100),
        roundDec 4 100.504, roundDec 4 100⟩], []) := by
    rw [processItem]
    simp only [tickerB, RawField.parse, hb]
    norm_num [deviationOf, DEVIATION_THRESHOLD, defaultDisplay, emptyTokenMap, abs_of_nonneg]
  have r1 : roundDec 2 (deviationOf 100 100.504) = 0.5 :=
    roundDec_eq_of (z := 50) (by norm_num [deviationOf]) (by norm_num [deviationOf])
      (by norm_num)
  have r2 : roundDec 2 ((0 : ℚ) * 100) = 0 :=
    roundDec_eq_of (z := 0) (by norm_num) (by norm_num) (by norm_num)
  have r3 : roundDec 4 (100.504 : ℚ) = 100.504 :=
    roundDec_eq_of (z := 1005040) (by norm_num) (by norm_num) (by norm_num)
  have r4 : roundDec 4 (100 : ℚ) = 100 :=
    roundDec_eq_of (z := 1000000) (by norm_num) (by norm_num) (by norm_num)
  rw [h0, r1, r2, r3, r4]

/-- The gathered (pre-sort) lists for the batch `[tickerA, tickerB]`. -/
theorem gather_AB :
    gather defaultDisplay emptyTokenMap [tickerA, tickerB] =
      .ok ([], [⟨"AAA", 0.5, 0, 100.5, 100⟩, ⟨"BBB", 0.5, 0, 100.504, 100⟩], []) := by
  rw [gather, processItem_tickerA, gather, processItem_tickerB, gather]
  simp

/-- C4 counterexample: in the batch `[tickerA, tickerB]` the second ticker
has the strictly larger exact `abs(deviation)` (0.504% vs 0.5%), yet the
produced candidate list keeps the input order AAA, BBB — the sort key is
the 2-decimal rendering `"0.50%"` parsed back, identical for both — so the
output is not sorted by descending exact `abs(deviation)`. -/
theorem c4_rounded_sort_counterexample :
    process_data defaultDisplay emptyTokenMap [tickerA, tickerB] =
        .ok ([], [⟨"AAA", 0.5, 0, 100.5, 100⟩, ⟨"BBB", 0.5, 0, 100.504, 100⟩], []) ∧
      |deviationOf 100 100.504| > |deviationOf 100 100.5| := by
  constructor
  · rw [process_data, gather_AB]
    dsimp only
    have hsort : pySortKey arbKey
        [⟨"AAA", 0.5, 0, 100.5, 100⟩, ⟨"BBB", 0.5, 0, 100.504, 100⟩] =
        [(⟨"AAA", 0.5, 0, 100.5, 100⟩ : ArbEntry), ⟨"BBB", 0.5, 0, 100.504, 100⟩] := by
      rw [pySortKey]
      simp only [List.insertionSort, List.orderedInsert]
      rw [if_pos (by norm_num [arbKey, abs_of_nonneg])]
    rw [hsort]
    rfl
  · norm_num [deviationOf, abs_of_nonneg]

/-- C4 amended: the candidate list is sorted by descending absolute value
of the *stored* deviation — the exact deviation rounded at two decimals,
as rendered and re-parsed by the sort key of line 99 — and entries whose
rounded deviations tie keep their original relative order. -/
theorem c4_sorted_by_rounded_deviation (display : String → Bool) (tm : TokenMap)
    (raw : List RawTicker) (m0 : List MainRow) (a0 : List ArbEntry)
    (p0 : List PlatformEntry) (h : gather display tm raw = .ok (m0, a0, p0)) :
    process_data display tm raw = .ok (m0, pySortKey arbKey a0, pySortKey platKey p0) ∧
      (pySortKey arbKey a0).Pairwise (fun x y => |y.deviation| ≤ |x.deviation|) ∧
      ∀ k : ℚ, (pySortKey arbKey a0).filter (fun e => decide (|e.deviation| = k)) =
        a0.filter fun e => decide (|e.deviation| = k) := by
  refine ⟨by rw [process_data, h], ?_, ?_⟩
  · exact (pySortKey_pairwise arbKey a0).imp fun hxy => neg_le_neg_iff.mp hxy
  · intro k
    have hcongr : ∀ l : List ArbEntry,
        l.filter (fun e => decide (arbKey e = -k)) =
          l.filter fun e => decide (|e.deviation| = k) := by
      intro l
      refine List.filter_congr fun e _ => decide_eq_decide.mpr ?_
      rw [arbKey]
      exact neg_inj
    rw [← hcongr, pySortKey_filter_eq arbKey a0 (-k), hcongr]

/-- Witness for C4's amended theorem on the concrete batch
`[tickerA, tickerB]`. -/
theorem c4_sorted_by_rounded_deviation_witness :
    process_data defaultDisplay emptyTokenMap [tickerA, tickerB] =
        .ok ([], pySortKey arbKey
            [⟨"AAA", 0.5, 0, 100.5, 100⟩, ⟨"BBB", 0.5, 0, 100.504, 100⟩],
          pySortKey platKey []) ∧
      (pySortKey arbKey
          [⟨"AAA", 0.5, 0, 100.5, 100⟩, ⟨"BBB", 0.5, 0, 100.504, 100⟩]).Pairwise
        (fun x y => |y.deviation| ≤ |x.deviation|) ∧
      ∀ k : ℚ,
        (pySortKey arbKey
            [⟨"AAA", 0.5, 0, 100.5, 100⟩, ⟨"BBB", 0.5, 0, 100.504, 100⟩]).filter
            (fun e => decide (|e.deviation| = k)) =
          List.filter (fun e => decide (|e.deviation| = k))
            [⟨"AAA", 0.5, 0, 100.5, 100⟩, ⟨"BBB", 0.5, 0, 100.504, 100⟩] :=
  c4_sorted_by_rounded_deviation defaultDisplay emptyTokenMap [tickerA, tickerB]
    [] [⟨"AAA", 0.5, 0, 100.5, 100⟩, ⟨"BBB", 0.5, 0, 100.504, 100⟩] [] gather_AB

/-- C7: the opportunity list is sorted primarily by descending
`abs(deviation)`, secondarily by descending `abs(fundingRatePct)`, and
entries equal on both keys keep their original order. -/
theorem c7_opportunities_sorted (display : String → Bool) (tm : TokenMap)
    (raw : List RawTicker) (m0 : List MainRow) (a0 : List ArbEntry)
    (p0 : List PlatformEntry) (h : gather display tm raw = .ok (m0, a0, p0)) :
    process_data display tm raw = .ok (m0, pySortKey arbKey a0, pySortKey platKey p0) ∧
      (pySortKey platKey p0).Pairwise (fun x y =>
        |y.deviation| < |x.deviation| ∨
          |x.deviation| = |y.deviation| ∧ |y.funding_rate| ≤ |x.funding_rate|) ∧
      ∀ k : ℚ × ℚ,
        (pySortKey platKey p0).filter
            (fun e => decide ((|e.deviation|, |e.funding_rate|) = k)) =
          p0.filter fun e => decide ((|e.deviation|, |e.funding_rate|) = k) := by
  refine ⟨by rw [process_data, h], ?_, ?_⟩
  · refine (pySortKey_pairwise platKey p0).imp fun hxy => ?_
    rcases (Prod.Lex.le_iff _ _).mp hxy with h1 | ⟨h1, h2⟩
    · exact Or.inl (neg_lt_neg_iff.mp h1)
    · exact Or.inr ⟨neg_inj.mp h1, neg_le_neg_iff.mp h2⟩
  · intro k
    have hcongr : ∀ l : List PlatformEntry,
        l.filter (fun e => decide (platKey e = toLex (-k.1, -k.2))) =
          l.filter fun e => decide ((|e.deviation|, |e.funding_rate|) = k) := by
      intro l
      refine List.filter_congr fun e _ => decide_eq_decide.mpr ?_
      rw [platKey, toLex_inj, Prod.ext_iff, Prod.ext_iff]
      simp
    rw [← hcongr, pySortKey_filter_eq platKey p0 (toLex (-k.1, -k.2)), hcongr]

/-- A registry mapping token AAA to a contract venue X and a lending venue
Y. -/
def tokenMapA : TokenMap := fun t =>
  if t = "AAA" then some [⟨"X", "合约"⟩, ⟨"Y", "理财"⟩] else none

/-- Per-item evaluation of `tickerA` against `tokenMapA`: one candidate,
two platform entries. -/
theorem processItem_tickerA_plat :
    processItem defaultDisplay tokenMapA tickerA =
      .ok ([], [⟨"AAA", 0.5, 0, 100.5, 100⟩],
        [⟨"AAA_USDT", 0.5, 0, "合约", "X"⟩, ⟨"AAA_USDT", 0.5, 0, "理财", "Y"⟩]) := by
  have hb : baseToken "AAAUSDT" = "AAA" := by decide
  have ht : tokenMapA "AAA" = some [⟨"X", "合约"⟩, ⟨"Y", "理财"⟩] := by decide
  have hp : "AAA" ++ "_USDT" = "AAA_USDT" := by decide
  have h0 : processItem defaultDisplay tokenMapA tickerA =
      .ok ([], [⟨"AAA", roundDec 2 (deviationOf 100 100.5), roundDec 2 (0 * 100),
          roundDec 4 100.5, roundDec 4 100⟩],
        [⟨"AAA_USDT", deviationOf 100 100.5, 0 * 100, "合约", "X"⟩,
          ⟨"AAA_USDT", deviationOf 100 100.5, 0 * 100, "理财", "Y"⟩]) := by
    rw [processItem]
    simp only [tickerA, RawField.parse, hb, ht, hp, List.map_cons, List.map_nil]
    norm_num [deviationOf, DEVIATION_THRESHOLD, defaultDisplay, abs_of_nonneg]
  have r1 : roundDec 2 (deviationOf 100 100.5) = 0.5 :=
    roundDec_eq_of (z := 50) (by norm_num [deviationOf]) (by norm_num [deviationOf])
      (by norm_num)
  have r2 : roundDec 2 ((0 : ℚ) * 100) = 0 :=
    roundDec_eq_of (z := 0) (by norm_num) (by norm_num) (by norm_num)
  have r3 : roundDec 4 (100.5 : ℚ) = 100.5 :=
    roundDec_eq_of (z := 1005000) (by norm_num) (by norm_num) (by norm_num)
  have r4 : roundDec 4 (100 : ℚ) = 100 :=
    roundDec_eq_of (z := 1000000) (by norm_num) (by norm_num) (by norm_num)
  have hdev : deviationOf 100 100.5 = 0.5 := by norm_num [deviationOf]
  have hfund : (0 : ℚ) * 100 = 0 := by norm_num
  rw [h0, r1, r2, r3, r4, hdev, hfund]

/-- The gathered (pre-sort) lists for the single-ticker batch against
`tokenMapA`. -/
theorem gather_plat :
    gather defaultDisplay tokenMapA [tickerA] =
      .ok ([], [⟨"AAA", 0.5, 0, 100.5, 100⟩],
        [⟨"AAA_USDT", 0.5, 0, "合约", "X"⟩, ⟨"AAA_USDT", 0.5, 0, "理财", "Y"⟩]) := by
  rw [gather, processItem_tickerA_plat, gather]
  simp

/-- Witness for C7 on the concrete batch `[tickerA]` against `tokenMapA`. -/
theorem c7_opportunities_sorted_witness :
    process_data defaultDisplay tokenMapA [tickerA] =
        .ok ([], pySortKey arbKey [⟨"AAA", 0.5, 0, 100.5, 100⟩],
          pySortKey platKey
            [⟨"AAA_USDT", 0.5, 0, "合约", "X"⟩, ⟨"AAA_USDT", 0.5, 0, "理财", "Y"⟩]) ∧
      (pySortKey platKey
          [⟨"AAA_USDT", 0.5, 0, "合约", "X"⟩, ⟨"AAA_USDT", 0.5, 0, "理财", "Y"⟩]).Pairwise
        (fun x y =>
          |y.deviation| < |x.deviation| ∨
            |x.deviation| = |y.deviation| ∧ |y.funding_rate| ≤ |x.funding_rate|) ∧
      ∀ k : ℚ × ℚ,
        (pySortKey platKey
            [⟨"AAA_USDT", 0.5, 0, "合约", "X"⟩, ⟨"AAA_USDT", 0.5, 0, "理财", "Y"⟩]).filter
            (fun e => decide ((|e.deviation|, |e.funding_rate|) = k)) =
          List.filter (fun e => decide ((|e.deviation|, |e.funding_rate|) = k))
            [⟨"AAA_USDT", 0.5, 0, "合约", "X"⟩, ⟨"AAA_USDT", 0.5, 0, "理财", "Y"⟩] :=
  c7_opportunities_sorted defaultDisplay tokenMapA [tickerA]
    [] [⟨"AAA", 0.5, 0, 100.5, 100⟩]
    [⟨"AAA_USDT", 0.5, 0, "合约", "X"⟩, ⟨"AAA_USDT", 0.5, 0, "理财", "Y"⟩] gather_plat
